import Mathlib

/-!
Shallow embedding of the Milk-Track receipt pipeline (a React/TypeScript
PWA that scans dairy receipts with a vision model, normalizes the fields,
validates them in the UI, and persists them to a Supabase backend).

Sources embedded here:
- `src/unnamed/part_001` (the authenticated `App.tsx`): `getImageCaptureDate`,
  `compressImage`, `handleImageUpload` (JSON-span extraction and date
  fallback), the manual-entry `onSubmit` (CLR derivation), the edit-form
  `onSubmit` (merge of overrides), `handleSaveReceipt` (receipt-data
  construction) and the react-hook-form `register` validation rules.
- `src/src/App.tsx`: the same validation rules with the narrow base-rate
  range (max 5 instead of 100).
- `receiptService.ts` (concatenated in `src/SUPABASE_SCHEMA.sql`):
  `saveReceipt` and `getUserReceipts`.
- `Records.tsx` (concatenated in `src/src/services/aiRecordService.ts`):
  `groupReceiptsByMonth`, the text filter and the month-total row.

Machine numbers are modelled as `ℚ` (JavaScript numbers on the concrete
values involved behave as exact decimals at the precision the app uses);
strings are Lean `String`s; absent JavaScript object fields are `Option`.
-/

unseal Rat.mul Rat.add Rat.sub Rat.inv Rat.ofScientific

/-- Pads a natural number to at least two digits with a leading zero,
embedding `String(n).padStart(2, '0')` for `n < 100`. -/
def pad2 (n : ℕ) : String :=
  if n < 10 then "0" ++ toString n else toString n

/-- Numeric value of a list of decimal digit characters. -/
def digitsToNat (l : List Char) : ℕ :=
  l.foldl (fun a c => 10 * a + (c.toNat - 48)) 0

/-- Splits a character list at every occurrence of a separator character
(the splitting behaviour of JavaScript `String.split` and of date-part
destructuring used by the app). -/
def splitOnChar (sep : Char) : List Char → List (List Char)
  | [] => [[]]
  | c :: cs =>
      let r := splitOnChar sep cs
      if c = sep then [] :: r
      else
        match r with
        | [] => [[c]]
        | h :: t => (c :: h) :: t

/-- Parses a non-negative decimal literal (digits with at most one dot) to a
rational. Embeds the behaviour of JavaScript number parsing
(`parseFloat` / `Number`) on the well-formed non-negative decimal strings the
app's numeric form inputs produce; `none` stands for `NaN`. -/
def parseDec (s : String) : Option ℚ :=
  match splitOnChar '.' s.data with
  | [i] =>
      if i ≠ [] ∧ i.all Char.isDigit then
        some (mkRat (digitsToNat i) 1)
      else none
  | [i, f] =>
      if (i ≠ [] ∨ f ≠ []) ∧ i.all Char.isDigit ∧ f ≠ [] ∧ f.all Char.isDigit then
        some (mkRat (digitsToNat i) 1 + mkRat (digitsToNat f) (10 ^ f.length))
      else none
  | _ => none

/-- Embeds JavaScript `x.toFixed(2)` for non-negative `x`: round to the
nearest hundredth (half up, via `⌊100x + 1/2⌋`) and print with exactly two
fraction digits. -/
def toFixed2 (q : ℚ) : String :=
  let n : ℤ := (q * 100 + mkRat 1 2).floor
  toString (n / 100) ++ "." ++ pad2 (n % 100).toNat

/-- The sparse record of receipt fields held in React state, embedding the
`ParsedData` interface of `App.tsx`. `none` is an absent field. -/
structure ParsedData where
  rawText : String
  date : Option String
  quantity : Option String
  fat : Option String
  clr : Option String
  fatKg : Option String
  snfKg : Option String
  baseRate : Option String
  rate : Option String
  amount : Option String
deriving DecidableEq, Repr

/-- Field-level JavaScript object-spread: `{...base, ...override}` keeps the
base value exactly when the override key is absent. -/
def spreadField (override base : Option String) : Option String :=
  match override with
  | some v => some v
  | none => base

/-- The submitted values of the edit form (`register`ed fields only; `rawText`
is not registered, so it is never overridden). `none` is an absent key. -/
structure Overrides where
  date : Option String
  quantity : Option String
  fat : Option String
  clr : Option String
  fatKg : Option String
  snfKg : Option String
  baseRate : Option String
  rate : Option String
  amount : Option String
deriving DecidableEq, Repr

/-- Embeds the edit-form `onSubmit` of `App.tsx`
(`setParsedData({ ...parsedData!, ...data })`): merge the form data over the
current parsed record, field by field. -/
def reconcile (p : ParsedData) (d : Overrides) : ParsedData :=
  { rawText := p.rawText
    date := spreadField d.date p.date
    quantity := spreadField d.quantity p.quantity
    fat := spreadField d.fat p.fat
    clr := spreadField d.clr p.clr
    fatKg := spreadField d.fatKg p.fatKg
    snfKg := spreadField d.snfKg p.snfKg
    baseRate := spreadField d.baseRate p.baseRate
    rate := spreadField d.rate p.rate
    amount := spreadField d.amount p.amount }

theorem spreadField_idem (o b : Option String) :
    spreadField o (spreadField o b) = spreadField o b := by
  cases o <;> rfl

/-- claim C9 — `reconcile` (the merge of the parsed record with the edit
form's override data) is idempotent: applying it twice with the same
overrides yields the same record as applying it once. -/
theorem reconcile_idem (p : ParsedData) (d : Overrides) :
    reconcile (reconcile p d) d = reconcile p d := by
  unfold reconcile
  simp only [spreadField_idem]

/-- The row shape inserted into the `receipts` table, embedding the
`receiptData` object literal built in `handleSaveReceipt` plus `image_url`. -/
structure ReceiptData where
  date : String
  quantity : String
  fat : String
  clr : String
  fat_kg : Option String
  snf_kg : Option String
  base_rate : String
  rate : String
  amount : String
  image_url : String
deriving DecidableEq, Repr

/-- Embeds the `receiptData` construction in `handleSaveReceipt`
(both the manual and the camera path build the identical literal):
`date: parsedData.date || ''`, ..., while `fat_kg`/`snf_kg` are passed
through without an empty-string default. On strings, `x || ''` returns `''`
exactly when `x` is absent or `''`, which coincides with `Option.getD x ""`
under the `none` = absent convention. -/
def buildReceiptData (p : ParsedData) : ReceiptData :=
  { date := p.date.getD ""
    quantity := p.quantity.getD ""
    fat := p.fat.getD ""
    clr := p.clr.getD ""
    fat_kg := p.fatKg
    snf_kg := p.snfKg
    base_rate := p.baseRate.getD ""
    rate := p.rate.getD ""
    amount := p.amount.getD ""
    image_url := "" }

/-- The row `saveReceipt` (receiptService.ts) inserts into the database:
owner id plus the receipt fields verbatim, with `image_url` replaced by the
public URL obtained from storage (`''` when no image was uploaded). -/
structure ReceiptRow where
  user_id : String
  date : String
  quantity : String
  fat : String
  clr : String
  fat_kg : Option String
  snf_kg : Option String
  base_rate : String
  rate : String
  amount : String
  image_url : String
deriving DecidableEq, Repr

/-- Embeds the database insert of `saveReceipt` (receiptService.ts): the
function builds the row from its arguments unconditionally — it has no
validation step and no rejection path of its own. -/
def saveReceiptRow (userId : String) (rd : ReceiptData) (publicUrl : String) :
    ReceiptRow :=
  { user_id := userId
    date := rd.date
    quantity := rd.quantity
    fat := rd.fat
    clr := rd.clr
    fat_kg := rd.fat_kg
    snf_kg := rd.snf_kg
    base_rate := rd.base_rate
    rate := rd.rate
    amount := rd.amount
    image_url := publicUrl }

/-- claim C10 — at save time every still-unset field among date, quantity,
fat, clr, base_rate, rate and amount is persisted as the empty string `""`
(via `|| ''`) rather than left absent or rejected, while `fat_kg` and
`snf_kg` are passed through and stay absent when unset. -/
theorem unset_fields_saved_as_empty (p : ParsedData) (uid url : String) :
    (p.date = none → (saveReceiptRow uid (buildReceiptData p) url).date = "") ∧
    (p.quantity = none → (saveReceiptRow uid (buildReceiptData p) url).quantity = "") ∧
    (p.fat = none → (saveReceiptRow uid (buildReceiptData p) url).fat = "") ∧
    (p.clr = none → (saveReceiptRow uid (buildReceiptData p) url).clr = "") ∧
    (p.baseRate = none → (saveReceiptRow uid (buildReceiptData p) url).base_rate = "") ∧
    (p.rate = none → (saveReceiptRow uid (buildReceiptData p) url).rate = "") ∧
    (p.amount = none → (saveReceiptRow uid (buildReceiptData p) url).amount = "") ∧
    (saveReceiptRow uid (buildReceiptData p) url).fat_kg = p.fatKg ∧
    (saveReceiptRow uid (buildReceiptData p) url).snf_kg = p.snfKg := by
  refine ⟨?_, ?_, ?_, ?_, ?_, ?_, ?_, rfl, rfl⟩ <;>
    intro h <;> simp [saveReceiptRow, buildReceiptData, h]

/-- A fully-unset parsed record (only the raw model response text is kept). -/
def emptyParsed : ParsedData :=
  { rawText := "Manual entry", date := none, quantity := none, fat := none
    clr := none, fatKg := none, snfKg := none, baseRate := none, rate := none
    amount := none }

theorem unset_fields_saved_as_empty_witness :
    (saveReceiptRow "u1" (buildReceiptData emptyParsed) "").date = "" ∧
    (saveReceiptRow "u1" (buildReceiptData emptyParsed) "").quantity = "" ∧
    (saveReceiptRow "u1" (buildReceiptData emptyParsed) "").amount = "" ∧
    (saveReceiptRow "u1" (buildReceiptData emptyParsed) "").fat_kg = none := by
  have h := unset_fields_saved_as_empty emptyParsed "u1" ""
  exact ⟨h.1 rfl, h.2.1 rfl, h.2.2.2.2.2.2.1 rfl, h.2.2.2.2.2.2.2.1⟩

/-- The receipt fields that carry a react-hook-form validation rule. -/
inductive RField
  | date | quantity | fat | clr | fatKg | snfKg | baseRate | rate | amount
deriving DecidableEq, Repr

/-- A failed field-level validation rule: the field and the inline message
from the corresponding `register(...)` call. -/
structure FieldViolation where
  field : RField
  message : String
deriving DecidableEq, Repr

/-- Embeds the date `pattern` rule
`/^(0[1-9]|[12][0-9]|3[01])\/(0[1-9]|1[012])\/\d{4}$/` from the edit form. -/
def matchesDDMMYYYY (s : String) : Bool :=
  match s.data with
  | [a, b, s1, c, d, s2, e, f, g, h] =>
      s1 == '/' && s2 == '/' &&
      ((a == '0' && b.isDigit && !(b == '0')) ||
        ((a == '1' || a == '2') && b.isDigit) ||
        (a == '3' && (b == '0' || b == '1'))) &&
      ((c == '0' && d.isDigit && !(d == '0')) ||
        (c == '1' && (d == '0' || d == '1' || d == '2'))) &&
      (e.isDigit && f.isDigit && g.isDigit && h.isDigit)
  | _ => false

/-- Embeds one `min`/`max` rule pair of a `register(...)` call: an absent
(empty) value is not checked, a present value below the minimum yields the
`min` message, one above the maximum the `max` message. -/
def checkRange (fld : RField) (lo hi : ℚ) (minMsg maxMsg : String) :
    Option ℚ → List FieldViolation
  | none => []
  | some v =>
      if v < lo then [⟨fld, minMsg⟩]
      else if hi < v then [⟨fld, maxMsg⟩]
      else []

/-- Embeds the date field's `pattern`-only rule. -/
def checkDatePat (v : Option String) : List FieldViolation :=
  match v with
  | none => []
  | some s => if matchesDDMMYYYY s then [] else [⟨.date, "Use DD/MM/YYYY format"⟩]

/-- The two shipped variants of the base-rate rule: `src/src/App.tsx`
registers `max 5`, the authenticated app (`src/unnamed/part_001`)
registers `max 100`. -/
inductive BaseRateMode
  | narrow | wide
deriving DecidableEq, Repr

/-- Maximum of the base-rate range per app variant. -/
def baseRateMax : BaseRateMode → ℚ
  | .narrow => 5
  | .wide => 100

/-- Inline message of the base-rate `max` rule per app variant. -/
def baseRateMaxMsg : BaseRateMode → String
  | .narrow => "Max ₹5"
  | .wide => "Max ₹100"

/-- The numeric values of the edit form's fields as react-hook-form compares
them (`min`/`max` compare the input converted to a number; an empty field is
exempt and modelled as `none`). -/
structure FormValues where
  date : Option String
  quantity : Option ℚ
  fat : Option ℚ
  clr : Option ℚ
  fatKg : Option ℚ
  snfKg : Option ℚ
  baseRate : Option ℚ
  rate : Option ℚ
  amount : Option ℚ
deriving DecidableEq, Repr

/-- Embeds the complete set of `register(...)` validation rules of the edit
form, in source order, collecting every violated rule's field and message. -/
def validateRecord (m : BaseRateMode) (fv : FormValues) : List FieldViolation :=
  checkDatePat fv.date ++
  checkRange .quantity 0.1 500 "Min 0.1" "Max 500" fv.quantity ++
  checkRange .fat 2 11 "Min 2%" "Max 11%" fv.fat ++
  checkRange .clr 15 40 "Min 15" "Max 40" fv.clr ++
  checkRange .fatKg 0.01 50 "Min 0.01" "Max 50" fv.fatKg ++
  checkRange .snfKg 0.01 50 "Min 0.01" "Max 50" fv.snfKg ++
  checkRange .baseRate 0.1 (baseRateMax m) "Min ₹0.1" (baseRateMaxMsg m) fv.baseRate ++
  checkRange .rate 1 200 "Min ₹1" "Max ₹200" fv.rate ++
  checkRange .amount 1 100000 "Min ₹1" "Max ₹100k" fv.amount

theorem checkRange_eq_nil (fld : RField) (lo hi : ℚ) (m1 m2 : String)
    (v : Option ℚ) :
    checkRange fld lo hi m1 m2 v = [] ↔ ∀ x, v = some x → lo ≤ x ∧ x ≤ hi := by
  cases v with
  | none => simp [checkRange]
  | some x =>
      simp only [checkRange, Option.some.injEq, forall_eq']
      split_ifs with h1 h2
      · exact iff_of_false (by simp) (fun h => absurd h.1 (not_le.mpr h1))
      · exact iff_of_false (by simp) (fun h => absurd h.2 (not_le.mpr h2))
      · exact iff_of_true rfl ⟨not_lt.mp h1, not_lt.mp h2⟩

theorem checkDatePat_eq_nil (v : Option String) :
    checkDatePat v = [] ↔ ∀ s, v = some s → matchesDDMMYYYY s = true := by
  cases v with
  | none => simp [checkDatePat]
  | some s =>
      simp only [checkDatePat, Option.some.injEq]
      split_ifs with h <;> simp_all

/-- A form with only the quantity field filled in. -/
def onlyQuantity (v : ℚ) : FormValues :=
  { date := none, quantity := some v, fat := none, clr := none, fatKg := none
    snfKg := none, baseRate := none, rate := none, amount := none }

/-- claim C3 — the validator accepts a record exactly when every present
field lies in its closed range (quantity 0.1–500, fat 2–11, CLR 15–40,
fat-kg 0.01–50, SNF-kg 0.01–50, base rate 0.1–5 or 0.1–100 depending on the
app variant, rate 1–200, amount 1–100000; the date must match DD/MM/YYYY);
the bounds are inclusive: quantity 0.1 and 500 pass while 0.099 and 500.01
each fail with a violation on the quantity field. -/
theorem validator_ranges (m : BaseRateMode) :
    (∀ fv : FormValues, validateRecord m fv = [] ↔
      ((∀ s, fv.date = some s → matchesDDMMYYYY s = true) ∧
       (∀ x, fv.quantity = some x → (0.1 : ℚ) ≤ x ∧ x ≤ 500) ∧
       (∀ x, fv.fat = some x → (2 : ℚ) ≤ x ∧ x ≤ 11) ∧
       (∀ x, fv.clr = some x → (15 : ℚ) ≤ x ∧ x ≤ 40) ∧
       (∀ x, fv.fatKg = some x → (0.01 : ℚ) ≤ x ∧ x ≤ 50) ∧
       (∀ x, fv.snfKg = some x → (0.01 : ℚ) ≤ x ∧ x ≤ 50) ∧
       (∀ x, fv.baseRate = some x → (0.1 : ℚ) ≤ x ∧ x ≤ baseRateMax m) ∧
       (∀ x, fv.rate = some x → (1 : ℚ) ≤ x ∧ x ≤ 200) ∧
       (∀ x, fv.amount = some x → (1 : ℚ) ≤ x ∧ x ≤ 100000))) ∧
    baseRateMax BaseRateMode.narrow = 5 ∧
    baseRateMax BaseRateMode.wide = 100 ∧
    validateRecord m (onlyQuantity 0.1) = [] ∧
    validateRecord m (onlyQuantity 500) = [] ∧
    validateRecord m (onlyQuantity 0.099) = [⟨.quantity, "Min 0.1"⟩] ∧
    validateRecord m (onlyQuantity 500.01) = [⟨.quantity, "Max 500"⟩] := by
  refine ⟨?_, rfl, rfl, ?_, ?_, ?_, ?_⟩
  · intro fv
    simp [validateRecord, List.append_eq_nil, checkRange_eq_nil,
      checkDatePat_eq_nil, and_assoc]
  all_goals cases m <;> decide


/-- The numeric view of a receipt's string fields as the edit form's rules
compare them: an empty field is exempt (`none`), a decimal literal is its
numeric value. -/
def toFormValues (rd : ReceiptData) : FormValues :=
  { date := if rd.date = "" then none else some rd.date
    quantity := parseDec rd.quantity
    fat := parseDec rd.fat
    clr := parseDec rd.clr
    fatKg := rd.fat_kg.bind parseDec
    snfKg := rd.snf_kg.bind parseDec
    baseRate := parseDec rd.base_rate
    rate := parseDec rd.rate
    amount := parseDec rd.amount }

/-- The validator's verdict on a receipt about to be persisted. -/
def validateReceiptData (m : BaseRateMode) (rd : ReceiptData) :
    List FieldViolation :=
  validateRecord m (toFormValues rd)

/-- A receipt whose quantity (0.05 L) lies below the validated minimum of
0.1 L while every other field is in range. -/
def badReceipt : ReceiptData :=
  { date := "05/01/2024", quantity := "0.05", fat := "4", clr := "28"
    fat_kg := none, snf_kg := none, base_rate := "4", rate := "45"
    amount := "450", image_url := "" }

/-- claim C1, counterexample — a record carrying a `FieldViolation`
(quantity 0.05, below the 0.1 minimum) is nevertheless persisted verbatim by
`saveReceipt`: the save path has no validation step and no rejection
branch, so validation is only advisory at the UI layer. -/
theorem save_persists_invalid_receipt :
    (⟨.quantity, "Min 0.1"⟩ : FieldViolation) ∈
      validateReceiptData .wide badReceipt ∧
    saveReceiptRow "user-1" badReceipt "https://x/r.jpg" =
      { user_id := "user-1", date := "05/01/2024", quantity := "0.05"
        fat := "4", clr := "28", fat_kg := none, snf_kg := none
        base_rate := "4", rate := "45", amount := "450"
        image_url := "https://x/r.jpg" } := by
  exact ⟨by decide, rfl⟩

/-- claim C1, amended — `saveReceipt` does not validate: even when the
record contains a `FieldViolation`, the save path inserts the row built
verbatim from the record's fields (range validation exists only as advisory
react-hook-form rules in the edit form). -/
theorem save_ignores_violations (m : BaseRateMode) (uid : String)
    (rd : ReceiptData) (url : String)
    (_h : validateReceiptData m rd ≠ []) :
    saveReceiptRow uid rd url =
      { user_id := uid, date := rd.date, quantity := rd.quantity
        fat := rd.fat, clr := rd.clr, fat_kg := rd.fat_kg
        snf_kg := rd.snf_kg, base_rate := rd.base_rate, rate := rd.rate
        amount := rd.amount, image_url := url } := rfl

theorem save_ignores_violations_witness :
    validateReceiptData .wide badReceipt ≠ [] ∧
    saveReceiptRow "user-1" badReceipt "" =
      { user_id := "user-1", date := badReceipt.date
        quantity := badReceipt.quantity, fat := badReceipt.fat
        clr := badReceipt.clr, fat_kg := badReceipt.fat_kg
        snf_kg := badReceipt.snf_kg, base_rate := badReceipt.base_rate
        rate := badReceipt.rate, amount := badReceipt.amount
        image_url := "" } :=
  ⟨by decide, save_ignores_violations .wide "user-1" badReceipt "" (by decide)⟩

/-- A persisted receipt row as returned by the `receipts` table
(the `Receipt` interface of receiptService.ts). -/
structure Receipt where
  id : Option String
  user_id : String
  date : String
  quantity : String
  fat : String
  clr : String
  fat_kg : Option String
  snf_kg : Option String
  base_rate : String
  rate : String
  amount : String
  image_url : String
  created_at : Option String
deriving DecidableEq, Repr

/-- Sort key of `.order("created_at", { ascending: false })`. -/
def createdKey (r : Receipt) : String :=
  r.created_at.getD ""

/-- Inserts a receipt into a list kept in descending `created_at` order. -/
def insertDescByCreated (r : Receipt) : List Receipt → List Receipt
  | [] => [r]
  | x :: xs =>
      if createdKey x ≤ createdKey r then r :: x :: xs
      else x :: insertDescByCreated r xs

/-- Sorts receipts by `created_at` descending (the database's
`order("created_at", { ascending: false })`). -/
def sortDescByCreated : List Receipt → List Receipt
  | [] => []
  | x :: xs => insertDescByCreated x (sortDescByCreated xs)

/-- Embeds `getUserReceipts` (receiptService.ts): select the rows of the
`receipts` table whose `user_id` equals the caller
(`.eq("user_id", userId)`), ordered by `created_at` descending. -/
def getUserReceipts (db : List Receipt) (userId : String) : List Receipt :=
  sortDescByCreated (db.filter (fun r => r.user_id == userId))

theorem mem_insertDescByCreated (a r : Receipt) (l : List Receipt) :
    a ∈ insertDescByCreated r l ↔ a = r ∨ a ∈ l := by
  induction l with
  | nil => simp [insertDescByCreated]
  | cons x xs ih =>
      simp only [insertDescByCreated]
      split_ifs
      · simp
      · simp only [List.mem_cons, ih]
        tauto

theorem mem_sortDescByCreated (a : Receipt) (l : List Receipt) :
    a ∈ sortDescByCreated l ↔ a ∈ l := by
  induction l with
  | nil => simp [sortDescByCreated]
  | cons x xs ih => simp [sortDescByCreated, mem_insertDescByCreated, ih]

/-- A receipt owned by user `alice`. -/
def aliceReceipt : Receipt :=
  { id := some "r1", user_id := "alice", date := "05/01/2024"
    quantity := "10", fat := "4", clr := "28", fat_kg := none
    snf_kg := none, base_rate := "70", rate := "45", amount := "450"
    image_url := "img1", created_at := some "2024-01-05T10:00:00Z" }

/-- A receipt owned by user `bob`. -/
def bobReceipt : Receipt :=
  { id := some "r2", user_id := "bob", date := "06/01/2024"
    quantity := "12", fat := "5", clr := "29", fat_kg := none
    snf_kg := none, base_rate := "71", rate := "46", amount := "552"
    image_url := "img2", created_at := some "2024-01-06T10:00:00Z" }

/-- A two-owner tenant database. -/
def demoDb : List Receipt := [aliceReceipt, bobReceipt]

/-- claim C2, counterexample — the record-listing operation is not
tenant-wide: with `bob`'s receipt persisted in the database, the listing for
caller `alice` does not contain it, because `getUserReceipts` filters on
`user_id = callerId`. -/
theorem listing_misses_other_owners :
    bobReceipt ∈ demoDb ∧ bobReceipt ∉ getUserReceipts demoDb "alice" := by
  decide

/-- claim C2, amended — `getUserReceipts` returns exactly the persisted
receipts owned by the caller (owner-scoped, ordered by `created_at`
descending), not every owner's receipts; the schema's row-level-security
policy would permit a tenant-wide read, but the client query restricts to
`user_id = callerId`. -/
theorem getUserReceipts_owner_scoped (db : List Receipt) (uid : String)
    (r : Receipt) :
    r ∈ getUserReceipts db uid ↔ r ∈ db ∧ r.user_id = uid := by
  unfold getUserReceipts
  rw [mem_sortDescByCreated]
  simp [List.mem_filter]

theorem getUserReceipts_owner_scoped_witness :
    bobReceipt ∈ getUserReceipts demoDb "bob" :=
  (getUserReceipts_owner_scoped demoDb "bob" bobReceipt).mpr ⟨by decide, rfl⟩

/-- Embeds the dimension computation of `compressImage`: if the width is the
longer side and exceeds 1600 px, scale it to 1600 (`height * 1600 / width`
for the other side); otherwise, if the height exceeds 1600 px, scale that to
1600; otherwise keep both dimensions. Values are the exact real results of
the JavaScript arithmetic, before the canvas coerces them to integers. -/
def compressDims (w h : ℕ) : ℚ × ℚ :=
  if w > h ∧ w > 1600 then ((1600 : ℚ), mkRat (h * 1600) w)
  else if h > 1600 then (mkRat (w * 1600) h, (1600 : ℚ))
  else ((w : ℚ), (h : ℚ))

/-- Embeds `compressImage`: the resized dimensions plus the fixed re-encoding
parameters of `canvas.toBlob(cb, 'image/jpeg', 0.85)`. -/
def compressImage (w h : ℕ) : (ℚ × ℚ) × String × ℚ :=
  (compressDims w h, ("image/jpeg", (0.85 : ℚ)))

/-- claim C5 — `compressImage` output dimensions never exceed 1600 px in
either direction, the aspect ratio is preserved exactly (before integer
coercion, hence within rounding), an input already within 1600 px on both
sides keeps its dimensions, and the result is re-encoded as lossy JPEG at
quality 0.85. -/
theorem compress_bounds (w h : ℕ) :
    (compressDims w h).1 ≤ 1600 ∧
    (compressDims w h).2 ≤ 1600 ∧
    (compressDims w h).1 * (h : ℚ) = (compressDims w h).2 * (w : ℚ) ∧
    (w ≤ 1600 → h ≤ 1600 → compressDims w h = ((w : ℚ), (h : ℚ))) ∧
    (compressImage w h).2 = ("image/jpeg", (0.85 : ℚ)) := by
  unfold compressImage compressDims
  split_ifs with h1 h2
  · obtain ⟨hwh, hw⟩ := h1
    have hw0 : (0 : ℚ) < (w : ℚ) := by exact_mod_cast Nat.lt_of_lt_of_le (by norm_num) (Nat.le_of_lt hw)
    have hc : (h : ℚ) ≤ (w : ℚ) := by exact_mod_cast Nat.le_of_lt hwh
    refine ⟨le_refl _, ?_, ?_, ?_, rfl⟩
    · rw [Rat.mkRat_eq_div, div_le_iff₀ hw0]
      push_cast
      nlinarith
    · rw [Rat.mkRat_eq_div]
      field_simp
      ring
    · intro hwle _
      exact absurd hw (by omega)
  · have hwleh : w ≤ h := by
      rcases Nat.lt_or_ge h w with hlt | hle
      · exact absurd (not_and.mp h1 hlt) (by omega)
      · exact hle
    have hh0 : (0 : ℚ) < (h : ℚ) := by exact_mod_cast Nat.lt_of_lt_of_le (by norm_num) (Nat.le_of_lt h2)
    have hc : (w : ℚ) ≤ (h : ℚ) := by exact_mod_cast hwleh
    refine ⟨?_, le_refl _, ?_, ?_, rfl⟩
    · rw [Rat.mkRat_eq_div, div_le_iff₀ hh0]
      push_cast
      nlinarith
    · rw [Rat.mkRat_eq_div]
      field_simp
      ring
    · intro _ hhle
      exact absurd h2 (by omega)
  · refine ⟨?_, ?_, mul_comm _ _, fun _ _ => rfl, rfl⟩
    · show (w : ℚ) ≤ 1600
      have hwle : w ≤ 1600 := by
        rcases Nat.lt_or_ge h w with hlt | hle
        · have := not_and.mp h1 hlt
          omega
        · omega
      exact_mod_cast hwle
    · show (h : ℚ) ≤ 1600
      have hhle : h ≤ 1600 := by omega
      exact_mod_cast hhle

theorem compress_bounds_witness :
    compressDims 800 600 = ((800 : ℚ), (600 : ℚ)) ∧
    (compressDims 3200 2000).1 ≤ 1600 ∧ (compressDims 3200 2000).2 ≤ 1600 :=
  ⟨(compress_bounds 800 600).2.2.2.1 (by norm_num) (by norm_num),
   (compress_bounds 3200 2000).1, (compress_bounds 3200 2000).2.1⟩

/-- Index of the first occurrence of a character in a list. -/
def firstIdxOf (c : Char) : List Char → Option ℕ
  | [] => none
  | x :: xs => if x = c then some 0 else (firstIdxOf c xs).map (· + 1)

/-- The nine optional fields the fixed prompt asks the model to return
(the object JSON.parse produces from the extracted span; a missing key is
`none`; JSON carries the values as strings). -/
structure ExtractedData where
  date : Option String
  quantity : Option String
  fat : Option String
  clr : Option String
  fatKg : Option String
  snfKg : Option String
  baseRate : Option String
  rate : Option String
  amount : Option String
deriving DecidableEq, Repr

/-- Embeds `responseText.match(/\x7b[\s\S]*\x7d/)`: the regex matches the
span from the first opening brace to the last closing brace of the whole
text, provided that closing brace lies strictly after the opening one;
otherwise there is no match (`null`). -/
def extractJsonSpan (s : String) : Option String :=
  let cs := s.data
  match firstIdxOf '{' cs, firstIdxOf '}' cs.reverse with
  | some i, some jr =>
      let j := cs.length - 1 - jr
      if i < j then some ⟨(cs.drop i).take (j - i + 1)⟩ else none
  | _, _ => none

/-- Failure modes of the extraction attempt in `handleImageUpload`: the
model's response held no recoverable structured payload (either no brace
span, or the span failed to parse as JSON). -/
inductive ExtractErr
  | malformed
deriving DecidableEq, Repr

/-- Embeds the response handling of `handleImageUpload`: isolate the first
`{...}` span of the response text and parse it; if no span is found the code
throws (`Could not parse response from Gemini`), and if `JSON.parse` throws
the same `catch` discards the attempt — either way no parsed data is
produced. `parse` stands for the platform's `JSON.parse` composed with field
projection. -/
def extract (parse : String → Option ExtractedData) (responseText : String) :
    Except ExtractErr ExtractedData :=
  match extractJsonSpan responseText with
  | some span =>
      match parse span with
      | some obj => Except.ok obj
      | none => Except.error ExtractErr.malformed
  | none => Except.error ExtractErr.malformed

theorem firstIdxOf_eq_none_of_not_mem (c : Char) (l : List Char)
    (h : c ∉ l) : firstIdxOf c l = none := by
  induction l with
  | nil => rfl
  | cons x xs ih =>
      simp only [List.mem_cons, not_or] at h
      have hx : ¬ x = c := fun hx => h.1 hx.symm
      simp only [firstIdxOf, if_neg hx, ih h.2, Option.map_none']

/-- claim C4 — when the model response holds no `{...}` span, or the
extracted span fails to parse as JSON, extraction fails with the malformed
error and produces no partially populated result: a successful result can
only arise from a span the parser accepted in full. -/
theorem extract_malformed_hard_failure (parse : String → Option ExtractedData)
    (s : String) :
    (extractJsonSpan s = none → extract parse s = .error .malformed) ∧
    (∀ span, extractJsonSpan s = some span → parse span = none →
      extract parse s = .error .malformed) ∧
    ('{' ∉ s.data → extract parse s = .error .malformed) ∧
    (∀ obj, extract parse s = .ok obj →
      ∃ span, extractJsonSpan s = some span ∧ parse span = some obj) := by
  refine ⟨?_, ?_, ?_, ?_⟩
  · intro h
    simp [extract, h]
  · intro span hspan hparse
    simp [extract, hspan, hparse]
  · intro h
    have hnone : extractJsonSpan s = none := by
      simp only [extractJsonSpan]
      rw [firstIdxOf_eq_none_of_not_mem '{' s.data h]
    simp [extract, hnone]
  · intro obj h
    unfold extract at h
    rcases hspan : extractJsonSpan s with _ | span <;> rw [hspan] at h
    · exact absurd h (by simp)
    · refine ⟨span, rfl, ?_⟩
      rcases hp : parse span with _ | o <;> simp only [hp] at h
      · exact absurd h (by simp)
      · simp only [Except.ok.injEq] at h
        exact congrArg some h

theorem extract_malformed_hard_failure_witness :
    extract (fun _ => none) "the model returned prose only" =
      .error .malformed ∧
    extract (fun _ => none) "prefix {not json} suffix" = .error .malformed :=
  ⟨(extract_malformed_hard_failure (fun _ => none)
      "the model returned prose only").1 (by decide),
   (extract_malformed_hard_failure (fun _ => none)
      "prefix {not json} suffix").2.1 "{not json}" (by decide) rfl⟩

/-- Embeds `getImageCaptureDate`: format the file's `lastModified` timestamp
as `DD/MM/YYYY`. `day`, `monthIdx` and `year` are the local-time calendar
components `fileDate.getDate()`, `fileDate.getMonth()` (zero-based) and
`fileDate.getFullYear()` of that timestamp; day and month are zero-padded
with `padStart(2, '0')`. -/
def getImageCaptureDate (day monthIdx year : ℕ) : String :=
  pad2 day ++ "/" ++ pad2 (monthIdx + 1) ++ "/" ++ toString year

/-- Embeds the `setParsedData` call after a successful parse in
`handleImageUpload`: `{ rawText, date: extractedData.date || captureDate,
...extractedData }`. Because the spread comes last, the final date is the
extracted one whenever the key is present, and the capture-date fallback
exactly when the parsed object has no date key. -/
def buildParsedData (responseText : String) (x : ExtractedData)
    (captureDate : String) : ParsedData :=
  { rawText := responseText
    date := some (x.date.getD captureDate)
    quantity := x.quantity
    fat := x.fat
    clr := x.clr
    fatKg := x.fatKg
    snfKg := x.snfKg
    baseRate := x.baseRate
    rate := x.rate
    amount := x.amount }

/-- claim C6 — when the successfully parsed extraction result lacks a date
field, the resulting record's date is the capture file's last-modified
timestamp formatted as DD/MM/YYYY with zero-padded day and month. -/
theorem date_fallback_capture_timestamp (rt : String) (x : ExtractedData)
    (d mIdx y : ℕ) (hx : x.date = none) :
    (buildParsedData rt x (getImageCaptureDate d mIdx y)).date =
      some (pad2 d ++ "/" ++ pad2 (mIdx + 1) ++ "/" ++ toString y) := by
  simp [buildParsedData, getImageCaptureDate, hx]

/-- A parse result whose object carried every numeric field but no date. -/
def datelessExtraction : ExtractedData :=
  { date := none, quantity := some "10", fat := some "4.0", clr := some "28"
    fatKg := none, snfKg := none, baseRate := some "70", rate := some "45"
    amount := some "450" }

theorem date_fallback_capture_timestamp_witness :
    datelessExtraction.date = none ∧
    (buildParsedData "raw" datelessExtraction
        (getImageCaptureDate 5 0 2024)).date = some "05/01/2024" :=
  ⟨rfl, by
    rw [date_fallback_capture_timestamp "raw" datelessExtraction 5 0 2024 rfl]
    decide⟩

/-- The values submitted by the manual-entry form (all six inputs are
`required`, so each key is present as a string). -/
structure ManualForm where
  date : String
  quantity : String
  fat : String
  snfKg : String
  rate : String
  amount : String
deriving DecidableEq, Repr

/-- JavaScript `x || '0'` on strings: the `'0'` default applies exactly to
the empty string. -/
def orZero (s : String) : String :=
  if s = "" then "0" else s

/-- Embeds the manual-entry form's submit handler: derive
`clr = (parseFloat(snfValue) + 0.25 * parseFloat(fatValue)).toFixed(2)`
(`"NaN"` when a parse fails, as in JavaScript), convert the date from
`YYYY-MM-DD` to `DD/MM/YYYY` when it contains a dash, and assemble the
parsed record (a date input always yields the three-part shape, so other
shapes are passed through). -/
def manualOnSubmit (f : ManualForm) : ParsedData :=
  let snfValue := orZero f.snfKg
  let fatValue := orZero f.fat
  let clr :=
    match parseDec snfValue, parseDec fatValue with
    | some s, some v => toFixed2 (s + (0.25 : ℚ) * v)
    | _, _ => "NaN"
  let formattedDate :=
    if '-' ∈ f.date.data then
      match splitOnChar '-' f.date.data with
      | [y, m, d] => (⟨d⟩ : String) ++ "/" ++ (⟨m⟩ : String) ++ "/" ++ (⟨y⟩ : String)
      | _ => f.date
    else f.date
  { rawText := "Manual entry"
    date := some formattedDate
    quantity := some f.quantity
    fat := some f.fat
    clr := some clr
    fatKg := none
    snfKg := some f.snfKg
    baseRate := none
    rate := some f.rate
    amount := some f.amount }

/-- claim C7 — with SNF and fat present (and the manual form has no
lactometer input), the derived CLR equals `SNF + 0.25 × fat` rounded to two
decimal places. -/
theorem derived_clr (f : ManualForm) (s v : ℚ)
    (hs : parseDec (orZero f.snfKg) = some s)
    (hv : parseDec (orZero f.fat) = some v) :
    (manualOnSubmit f).clr = some (toFixed2 (s + (0.25 : ℚ) * v)) := by
  simp [manualOnSubmit, hs, hv]

/-- The manual entry of the spec's derivation example: SNF 3.2, fat 4.0. -/
def sampleManual : ManualForm :=
  { date := "2024-01-05", quantity := "10", fat := "4.0", snfKg := "3.2"
    rate := "45", amount := "450" }

theorem derived_clr_witness :
    parseDec (orZero sampleManual.snfKg) = some (mkRat 16 5) ∧
    parseDec (orZero sampleManual.fat) = some (mkRat 4 1) ∧
    (manualOnSubmit sampleManual).clr = some "4.20" :=
  ⟨by decide, by decide, by
    rw [derived_clr sampleManual (mkRat 16 5) (mkRat 4 1) (by decide) (by decide)]
    decide⟩

/-- Lower-cases a character list (JavaScript `toLowerCase` on the ASCII
field texts the app renders). -/
def lowerList (l : List Char) : List Char :=
  l.map Char.toLower

/-- Whether the first list is a prefix of the second. -/
def startsWithList : List Char → List Char → Bool
  | [], _ => true
  | _ :: _, [] => false
  | a :: as, b :: bs => a == b && startsWithList as bs

/-- Whether `needle` occurs as a contiguous run inside the second list. -/
def containsSubList (needle : List Char) : List Char → Bool
  | [] => needle.isEmpty
  | hay@(_ :: rest) => startsWithList needle hay || containsSubList needle rest

/-- Embeds `String(val).toLowerCase().includes(filter.toLowerCase())`: a
case-insensitive substring test. -/
def jsIncludesLower (hay needle : String) : Bool :=
  containsSubList (lowerList needle.data) (lowerList hay.data)

/-- JavaScript `String(val)` over a row value: a SQL `NULL` renders as
`"null"`. -/
def renderValue : Option String → String
  | some s => s
  | none => "null"

/-- The rendered texts of every column of a receipt row
(`Object.values(r)`). -/
def renderedValues (r : Receipt) : List String :=
  [renderValue r.id, r.user_id, r.date, r.quantity, r.fat, r.clr,
   renderValue r.fat_kg, renderValue r.snf_kg, r.base_rate, r.rate,
   r.amount, r.image_url, renderValue r.created_at]

/-- Embeds the filter predicate of `groupReceiptsByMonth`:
`Object.values(r).some(val => String(val).toLowerCase().includes(globalFilter.toLowerCase()))`. -/
def matchesFilter (gf : String) (r : Receipt) : Bool :=
  (renderedValues r).any (fun v => jsIncludesLower v gf)

/-- Embeds `globalFilter ? receipts.filter(...) : receipts`: the filter is
skipped when the filter text is empty (falsy). -/
def filterReceipts (gf : String) (rs : List Receipt) : List Receipt :=
  if gf = "" then rs else rs.filter (matchesFilter gf)

/-- Embeds date-fns `parse(date, 'dd/MM/yyyy', ...)` on the app's date
strings: three slash-separated digit groups with day 1–31 and month 1–12
(day-in-month calendar checking is irrelevant to the dates the view
handles); an unparsable date makes the record get dropped by the grouping's
`catch`. -/
def parseDMY (s : String) : Option (ℕ × ℕ × ℕ) :=
  match splitOnChar '/' s.data with
  | [d, m, y] =>
      if d ≠ [] ∧ d.length ≤ 2 ∧ d.all Char.isDigit ∧
         m ≠ [] ∧ m.length ≤ 2 ∧ m.all Char.isDigit ∧
         y.length = 4 ∧ y.all Char.isDigit then
        let dn := digitsToNat d
        let mn := digitsToNat m
        let yn := digitsToNat y
        if 1 ≤ dn ∧ dn ≤ 31 ∧ 1 ≤ mn ∧ mn ≤ 12 then some (dn, mn, yn)
        else none
      else none
  | _ => none

/-- English month name, as date-fns `format(date, 'MMMM yyyy')` prints it. -/
def monthName (m : ℕ) : String :=
  (["January", "February", "March", "April", "May", "June", "July",
    "August", "September", "October", "November", "December"]).getD (m - 1)
    "Invalid"

/-- The `'MMMM yyyy'` group label of a receipt's date, `none` when the date
does not parse. -/
def monthLabelOf (r : Receipt) : Option String :=
  (parseDMY r.date).map (fun t => monthName t.2.1 ++ " " ++ toString t.2.2)

/-- Appends a receipt to its month group, creating the group at the end on
first use (the object-property insertion of `groups[monthYear].push`). -/
def addToGroups (gs : List (String × List Receipt)) (k : String)
    (r : Receipt) : List (String × List Receipt) :=
  match gs with
  | [] => [(k, [r])]
  | (k₁, l) :: t =>
      if k₁ = k then (k₁, l ++ [r]) :: t else (k₁, l) :: addToGroups t k r

/-- One step of the grouping `reduce`: a receipt whose date fails to parse
is dropped, otherwise it is appended to its month's group. -/
def groupStep (gs : List (String × List Receipt)) (r : Receipt) :
    List (String × List Receipt) :=
  match monthLabelOf r with
  | some k => addToGroups gs k r
  | none => gs

/-- Embeds `groupReceiptsByMonth`: apply the text filter, then group the
surviving records by their `'MMMM yyyy'` label in first-appearance order. -/
def groupReceiptsByMonth (gf : String) (rs : List Receipt) :
    List (String × List Receipt) :=
  (filterReceipts gf rs).foldl groupStep []

/-- Looks a month label up in the grouped result (`groups[monthYear]`). -/
def lookupGroup (k : String) : List (String × List Receipt) →
    Option (List Receipt)
  | [] => none
  | (k₁, l) :: t => if k₁ = k then some l else lookupGroup k t

/-- The records of a list whose date falls in the month labelled `k`. -/
def monthMatching (k : String) (rs : List Receipt) : List Receipt :=
  rs.filter (fun r => monthLabelOf r == some k)

/-- Embeds the totals row of a month group:
`monthReceipts.reduce((sum, r) => sum + parseFloat(r.amount), 0)`, where an
unparsable amount poisons the sum as `NaN` (`none`). -/
def sumAmounts (rs : List Receipt) : Option ℚ :=
  rs.foldl (fun acc r => acc.bind (fun a => (parseDec r.amount).map (fun v => a + v)))
    (some 0)

/-- The `toFixed(2)` rendering of a month group's total. -/
def monthTotal (rs : List Receipt) : String :=
  match sumAmounts rs with
  | some q => toFixed2 q
  | none => "NaN"

theorem lookup_addToGroups (gs : List (String × List Receipt))
    (k k' : String) (r : Receipt) :
    lookupGroup k' (addToGroups gs k r) =
      if k' = k then some ((lookupGroup k' gs).getD [] ++ [r])
      else lookupGroup k' gs := by
  induction gs with
  | nil =>
      by_cases h : k' = k
      · subst h
        simp [addToGroups, lookupGroup]
      · simp [addToGroups, lookupGroup, h, Ne.symm h]
  | cons hd t ih =>
      obtain ⟨k₁, l₁⟩ := hd
      simp only [addToGroups]
      by_cases h1 : k₁ = k
      · subst h1
        rw [if_pos rfl]
        by_cases h2 : k' = k₁
        · subst h2
          simp [lookupGroup]
        · have h2' : ¬ k₁ = k' := fun hh => h2 hh.symm
          simp [lookupGroup, h2, h2']
      · rw [if_neg h1]
        by_cases h2 : k₁ = k'
        · subst h2
          simp [lookupGroup, h1]
        · simp only [lookupGroup, if_neg h2, ih]

theorem lookup_foldl_groupStep (rs : List Receipt) :
    ∀ (gs : List (String × List Receipt)) (k : String),
      lookupGroup k (rs.foldl groupStep gs) =
        match lookupGroup k gs with
        | some l => some (l ++ monthMatching k rs)
        | none =>
            if monthMatching k rs = [] then none
            else some (monthMatching k rs) := by
  induction rs with
  | nil =>
      intro gs k
      rcases h : lookupGroup k gs with _ | l <;> simp [monthMatching, h]
  | cons r t ih =>
      intro gs k
      simp only [List.foldl_cons]
      rw [ih]
      unfold groupStep
      rcases hm : monthLabelOf r with _ | k₀
      · have hcond : (monthLabelOf r == some k) = false := by
          rw [hm]
          rfl
        simp [monthMatching, List.filter_cons, hcond]
      · by_cases hk : k = k₀
        · subst hk
          have hcond : (monthLabelOf r == some k) = true := by
            rw [hm]
            exact beq_iff_eq.mpr rfl
          rw [lookup_addToGroups gs k k r, if_pos rfl]
          simp only [monthMatching, List.filter_cons, hcond, if_pos]
          cases hg : lookupGroup k gs <;>
            simp [monthMatching, List.append_assoc]
        · have hk' : ¬ k₀ = k := fun hh => hk hh.symm
          have hcond : (monthLabelOf r == some k) = false := by
            rw [hm]
            simp [hk']
          rw [lookup_addToGroups gs k₀ k r, if_neg hk]
          simp [monthMatching, List.filter_cons, hcond]

/-- claim C8 — `groupReceiptsByMonth` applies the case-insensitive text
filter before grouping by calendar month: each month group holds exactly the
filter-matching records of that month (in source order), so the group's
total sums only the amounts of records matching the filter. -/
theorem group_filters_before_totals (gf : String) (rs : List Receipt)
    (k : String) :
    (lookupGroup k (groupReceiptsByMonth gf rs) =
      if monthMatching k (filterReceipts gf rs) = [] then none
      else some (monthMatching k (filterReceipts gf rs))) ∧
    (∀ g, lookupGroup k (groupReceiptsByMonth gf rs) = some g →
      monthTotal g = monthTotal (monthMatching k (filterReceipts gf rs))) := by
  have h1 : lookupGroup k (groupReceiptsByMonth gf rs) =
      if monthMatching k (filterReceipts gf rs) = [] then none
      else some (monthMatching k (filterReceipts gf rs)) := by
    unfold groupReceiptsByMonth
    rw [lookup_foldl_groupStep]
    rfl
  refine ⟨h1, ?_⟩
  intro g hg
  rw [h1] at hg
  by_cases he : monthMatching k (filterReceipts gf rs) = []
  · rw [if_pos he] at hg
    exact absurd hg (by simp)
  · rw [if_neg he] at hg
    simp only [Option.some.injEq] at hg
    rw [hg]

/-- The 05/01/2024 receipt of amount 100 from the spec's aggregation
scenario. -/
def recJan5 : Receipt :=
  { id := some "a", user_id := "u1", date := "05/01/2024", quantity := "10"
    fat := "4", clr := "28", fat_kg := none, snf_kg := none
    base_rate := "70", rate := "45", amount := "100", image_url := "img"
    created_at := some "t1" }

/-- The 20/01/2024 receipt of amount 200. -/
def recJan20 : Receipt :=
  { id := some "b", user_id := "u1", date := "20/01/2024", quantity := "20"
    fat := "5", clr := "29", fat_kg := none, snf_kg := none
    base_rate := "71", rate := "46", amount := "200", image_url := "img"
    created_at := some "t2" }

/-- The 01/02/2024 receipt of amount 300. -/
def recFeb1 : Receipt :=
  { id := some "c", user_id := "u1", date := "01/02/2024", quantity := "30"
    fat := "6", clr := "30", fat_kg := none, snf_kg := none
    base_rate := "72", rate := "47", amount := "300", image_url := "img"
    created_at := some "t3" }

theorem group_filters_before_totals_witness :
    lookupGroup "January 2024"
        (groupReceiptsByMonth "100" [recJan5, recJan20, recFeb1]) =
      some [recJan5] ∧
    monthTotal [recJan5] = "100.00" ∧
    monthTotal [recJan5, recJan20] = "300.00" := by
  have h := group_filters_before_totals "100" [recJan5, recJan20, recFeb1]
    "January 2024"
  have hl : lookupGroup "January 2024"
      (groupReceiptsByMonth "100" [recJan5, recJan20, recFeb1]) =
      some [recJan5] := by
    rw [h.1]
    decide
  exact ⟨hl, (h.2 [recJan5] hl).trans (by decide), by decide⟩
